import Mathlib

/-!
Verification of the ButtonBoxes firmware core (trimbox.ino) against its
specification.  The definitions below are a shallow embedding of the C
source: 16-bit machine integers become natural numbers reduced modulo
2 ^ 16 where the code can wrap, the i2c transport becomes an abstract
oracle of transaction results consumed in program order, and the one
unbounded polling loop is indexed by explicit fuel so that divergence is
observable as fuel-independent failure to return.
-/

/-! ## Window filter (lines 31-33 and 502-535 of trimbox.ino) -/

/-- WINDOW_SIZE macro, line 31. -/
def WINDOW_SIZE : ℕ := 3

/-- WINDOW_H macro for a general window size n, line 32:
n = 0 gives 0, otherwise 1 shifted left by n - 1. -/
def windowH (n : ℕ) : ℕ := if n = 0 then 0 else 1 <<< (n - 1)

/-- Magnitude of the (negative) WINDOW_L macro for window size n, line 33:
WINDOW_L = -WINDOW_H + 1, so its magnitude is WINDOW_H - 1. -/
def windowLmag (n : ℕ) : ℕ := if n = 0 then 0 else windowH n - 1

/-- WINDOW_H at the configured size 3 (value 4). -/
def WINDOW_H : ℕ := windowH WINDOW_SIZE

/-- Magnitude of WINDOW_L at the configured size 3 (value 3). -/
def WINDOW_Lmag : ℕ := windowLmag WINDOW_SIZE

/-- WINDOW_L itself, as a signed integer, from the macro on line 33. -/
def WINDOW_Lz : ℤ := if WINDOW_SIZE = 0 then 0 else -(WINDOW_H : ℤ) + 1

/-- moveWindow, lines 502-535, parameterized by the magnitudes of the two
window offsets.  prev and next are uint16_t values (naturals below 2 ^ 16).
The C guards are, in order: 0 - WINDOW_L < prev together with
next < prev + WINDOW_L, and UINT16_MAX - WINDOW_H > prev together with
next > prev + WINDOW_H.  Inside each guard the unsigned arithmetic cannot
wrap, so truncated natural subtraction is exact. -/
def moveWindowP (lmag hmag prev next : ℕ) : ℕ :=
  if lmag < prev ∧ next < prev - lmag then next + lmag
  else if prev < 65535 - hmag ∧ prev + hmag < next then next - hmag
  else prev

/-- moveWindow at the compiled window size 3 (lmag 3, hmag 4). -/
def moveWindow (prev next : ℕ) : ℕ := moveWindowP WINDOW_Lmag WINDOW_H prev next

/-- Reinterpret a signed value as the uint16_t bit pattern it is converted
to when passed to moveWindow (cur and raw are stored as int16_t). -/
def toUInt16 (x : ℤ) : ℕ := (x % 65536).toNat

/-- Reinterpret a uint16_t bit pattern as the int16_t value it becomes
when stored back into the cur array. -/
def toInt16 (w : ℕ) : ℤ :=
  if w % 65536 < 32768 then ((w % 65536 : ℕ) : ℤ) else ((w % 65536 : ℕ) : ℤ) - 65536

/-- One filter step on int16_t channel values exactly as readAdc performs
it: the signed anchor and raw sample are converted to uint16_t, moveWindow
runs at the compiled window size, and the result is stored back signed. -/
def moveWindowInt16 (A R : ℤ) : ℤ := toInt16 (moveWindow (toUInt16 A) (toUInt16 R))

/-- Modelled from the spec's words for the window-filter step (section 4.3):
rule 1 fires when MIN - low < A and R < A + low giving R - low, rule 2 when
A < MAX - high and R > A + high giving R - high, else the anchor is kept.
The bounds lo and hi stand for the spec's MIN and MAX.  This is the
reference definition a refinement claim compares against the source. -/
def windowStepSpec (low high lo hi A R : ℤ) : ℤ :=
  if lo - low < A ∧ R < A + low then R - low
  else if A < hi - high ∧ A + high < R then R - high
  else A

/-! ## ADC driver state (lines 50-59) and transport oracle -/

/-- ads1115_state, lines 50-59.  raw and cur are the four int16_t slots,
kept here as uint16 bit patterns. -/
structure Ads where
  mask : ℕ
  config : ℕ
  raw0 : ℕ
  raw1 : ℕ
  raw2 : ℕ
  raw3 : ℕ
  cur0 : ℕ
  cur1 : ℕ
  cur2 : ℕ
  cur3 : ℕ
deriving DecidableEq, Repr

/-- Driver state plus the position reached in the transport oracle:
wCnt counts completed write transactions, rCnt counts read requests. -/
structure St where
  adc : Ads
  wCnt : ℕ
  rCnt : ℕ
deriving DecidableEq, Repr

/-- The i2c transport as an oracle: writeRes k is the Wire.endTransmission
result of the k-th write transaction (0 means acknowledged), readRes k is
the k-th 2-byte read request (none models Wire.available() < 2, some w the
big-endian assembled word). -/
structure Bus where
  writeRes : ℕ → ℕ
  readRes : ℕ → Option ℕ

/-- Read the raw slot with a runtime channel index (raw[k]). -/
def rawAt (a : Ads) (k : ℕ) : ℕ :=
  match k with
  | 0 => a.raw0
  | 1 => a.raw1
  | 2 => a.raw2
  | _ => a.raw3

/-- Read the cur slot with a runtime channel index (cur[k]). -/
def curAt (a : Ads) (k : ℕ) : ℕ :=
  match k with
  | 0 => a.cur0
  | 1 => a.cur1
  | 2 => a.cur2
  | _ => a.cur3

/-- Store into raw[k]. -/
def setRawAt (a : Ads) (k v : ℕ) : Ads :=
  match k with
  | 0 => { a with raw0 := v }
  | 1 => { a with raw1 := v }
  | 2 => { a with raw2 := v }
  | _ => { a with raw3 := v }

/-- Store into cur[k]. -/
def setCurAt (a : Ads) (k v : ℕ) : Ads :=
  match k with
  | 0 => { a with cur0 := v }
  | 1 => { a with cur1 := v }
  | 2 => { a with cur2 := v }
  | _ => { a with cur3 := v }

/-- readConfig, lines 143-170: select the config register (one write
transaction), then request two bytes; on success the mirrored config is
replaced by the word read back. -/
def readConfig (bus : Bus) (s : St) : ℕ × St :=
  let err := bus.writeRes s.wCnt
  let s1 : St := { s with wCnt := s.wCnt + 1 }
  if err ≠ 0 then (err, s1)
  else
    match bus.readRes s1.rCnt with
    | some w =>
        (0, { s1 with adc := { s1.adc with config := w &&& 0xffff }, rCnt := s1.rCnt + 1 })
    | none => (2, { s1 with rCnt := s1.rCnt + 1 })

/-- writeConfig, lines 172-204, as compiled with DEBUG = 0: one write
transaction carrying the register selector and both config bytes; on
success the mirror keeps the written word with bit 15 cleared. -/
def writeConfig (bus : Bus) (s : St) (c : ℕ) : ℕ × St :=
  let err := bus.writeRes s.wCnt
  let s1 : St := { s with wCnt := s.wCnt + 1 }
  if err ≠ 0 then (err, s1)
  else (0, { s1 with adc := { s1.adc with config := c &&& 0x7fff } })

/-- writeConfig with the DEBUG read-back block of lines 189-202 compiled
in: after a successful write the config is read back and the low 15 bits
are compared (bit 15 is skipped, line 197); the boolean reports whether
the mismatch diagnostic fired.  Line 203 then stores c with bit 15
cleared into the mirror regardless. -/
def writeConfigDbg (bus : Bus) (s : St) (c : ℕ) : ℕ × Bool × St :=
  let err := bus.writeRes s.wCnt
  let s1 : St := { s with wCnt := s.wCnt + 1 }
  if err ≠ 0 then (err, false, s1)
  else
    let rc := readConfig bus s1
    if rc.1 ≠ 0 then (rc.1, false, rc.2)
    else
      let mism : Bool := decide ((c &&& 0x7fff) ≠ (rc.2.adc.config &&& 0x7fff))
      (0, mism, { rc.2 with adc := { rc.2.adc with config := c &&& 0x7fff } })

/-- checkConversionReady, lines 377-386: read the config register and
extract bit 15 as the ready flag. -/
def checkConversionReady (bus : Bus) (s : St) : ℕ × ℕ × St :=
  let rc := readConfig bus s
  if rc.1 ≠ 0 then (rc.1, 0, rc.2)
  else (0, (rc.2.adc.config >>> 15) &&& 1, rc.2)

/-- The conversion-ready polling loop of readAdcI, lines 428-454.  The C
loop has no exit other than a transport error or the ready bit; fuel
bounds how many iterations we unfold, and none means the loop was still
running after that many iterations. -/
def pollReady (bus : Bus) : ℕ → St → Option (ℕ × St)
  | 0, _ => none
  | fuel + 1, s =>
      let r := checkConversionReady bus s
      if r.1 ≠ 0 then some (r.1, r.2.2)
      else if r.2.1 ≠ 0 then some (0, r.2.2)
      else pollReady bus fuel r.2.2

/-- The conversion fetch at the end of readAdcI, lines 456-474: select the
conversion register (one write transaction), request two bytes, and store
the big-endian word into raw at the already-clamped channel index. -/
def convRead (bus : Bus) (s : St) (i : ℕ) : ℕ × St :=
  let err := bus.writeRes s.wCnt
  let s1 : St := { s with wCnt := s.wCnt + 1 }
  if err ≠ 0 then (err, s1)
  else
    match bus.readRes s1.rCnt with
    | some v =>
        (0, { s1 with adc := setRawAt s1.adc i (v &&& 0xffff), rCnt := s1.rCnt + 1 })
    | none => (2, { s1 with rCnt := s1.rCnt + 1 })

/-- readAdcI, lines 389-475: clamp the index to its low two bits, return
success immediately when the channel is masked out, otherwise build the
mux/start configuration word, write it, poll for readiness, then fetch
the conversion result into raw.  none propagates a poll that never
finished within the fuel. -/
def readAdcI (bus : Bus) (fuel : ℕ) (s : St) (idx : ℕ) : Option (ℕ × St) :=
  let i := idx &&& 0b11
  if (1 <<< i) &&& s.adc.mask = 0 then some (0, s)
  else
    let cfg := ((((s.adc.config &&& 0x8fff) ||| (1 <<< 14)) ||| (i <<< 12)) ||| (1 <<< 15))
    let w := writeConfig bus s cfg
    if w.1 ≠ 0 then some (w.1, w.2)
    else
      match pollReady bus fuel w.2 with
      | none => none
      | some (e, s2) =>
          if e ≠ 0 then some (e, s2)
          else some (convRead bus s2 i)

/-- The per-channel smoothing update of readAdc, line 489:
cur[i] = moveWindow(cur[i], raw[i]). -/
def updCur (s : St) (i : ℕ) : St :=
  { s with adc := setCurAt s.adc i (moveWindow (curAt s.adc i) (rawAt s.adc i)) }

/-- The channel loop of readAdc over an explicit list of indices: each
channel is read, a nonzero error aborts the whole loop at once, a
successful read is followed by the window update. -/
def readAdcFrom (bus : Bus) (fuel : ℕ) : List ℕ → St → Option (ℕ × St)
  | [], s => some (0, s)
  | i :: rest, s =>
      match readAdcI bus fuel s i with
      | none => none
      | some (e, s') =>
          if e ≠ 0 then some (e, s') else readAdcFrom bus fuel rest (updCur s' i)

/-- readAdc, lines 477-492: the channels are visited in the fixed
ascending order 0, 1, 2, 3. -/
def readAdc (bus : Bus) (fuel : ℕ) (s : St) : Option (ℕ × St) :=
  readAdcFrom bus fuel [0, 1, 2, 3] s

/-- A transport on which every write is acknowledged and every read
returns the word 0: the device never reports conversion ready. -/
def busStuck : Bus := ⟨fun _ => 0, fun _ => some 0⟩

/-- A transport on which every write is acknowledged and every read
returns 0x8000: ready bit always set, conversion value 0x8000. -/
def busOk : Bus := ⟨fun _ => 0, fun _ => some 0x8000⟩

/-- A transport that rejects the 7th write transaction (index 6) with
error 4 and acknowledges everything else; reads always return 0x8000.
With all four channels enabled and immediate readiness, transaction 6 is
exactly the configuration write that starts channel 2's conversion. -/
def busFail2 : Bus := ⟨fun n => if n = 6 then 4 else 0, fun _ => some 0x8000⟩

/-! ## Human-readable config rendering (hntoc macro line 139, humanConfigz lines 247-362) -/

/-- The hntoc macro, line 139: low three bits to a digit character. -/
def hntoc (n : ℕ) : Char :=
  if n &&& 4 ≠ 0 then
    if n &&& 2 ≠ 0 then (if n &&& 1 ≠ 0 then '7' else '6')
    else (if n &&& 1 ≠ 0 then '5' else '4')
  else
    if n &&& 2 ≠ 0 then (if n &&& 1 ≠ 0 then '3' else '2')
    else (if n &&& 1 ≠ 0 then '1' else '0')

/-- The NUL character strncpy pads short tokens with. -/
def nulChar : Char := Char.ofNat 0

/-- Bit 15 token, case 15 of humanConfigz: I for idle, C for converting. -/
def startChar (v : ℕ) : Char := if v ≠ 0 then 'I' else 'C'

/-- Mux token, case 12: absolute channels render as A, digit, G;
nonzero differential pairs as D, digit, 3; pair zero as D, 0, 1. -/
def muxToken (v : ℕ) : List Char :=
  if v &&& 4 ≠ 0 then ['A', hntoc (v &&& 3), 'G']
  else if v ≠ 0 then ['D', hntoc ((v &&& 3) - 1), '3']
  else ['D', '0', '1']

/-- Gain token, case 9: full-scale range in volts, codes 5-7 share 0.2. -/
def gainToken (v : ℕ) : List Char :=
  match v with
  | 0 => ['6', '.', '1']
  | 1 => ['4', '.', '0']
  | 2 => ['2', '.', '0']
  | 3 => ['1', '.', '0']
  | 4 => ['0', '.', '5']
  | _ => ['0', '.', '2']

/-- Mode token, case 8: D for single-shot, C for continuous. -/
def modeChar (v : ℕ) : Char := if v ≠ 0 then 'D' else 'C'

/-- Data-rate token, case 5: codes 6 and 7 are special-cased to 475 and
860; every other code goes through itoa(8 << val) and strncpy with bound
3, which NUL-pads tokens shorter than three characters. -/
def rateToken (v : ℕ) : List Char :=
  match v with
  | 7 => ['8', '6', '0']
  | 6 => ['4', '7', '5']
  | _ => (Nat.toDigits 10 (8 <<< v) ++ [nulChar, nulChar, nulChar]).take 3

/-- Comparator-mode token, case 4: W for window, T for traditional. -/
def compChar (v : ℕ) : Char := if v ≠ 0 then 'W' else 'T'

/-- Polarity token, case 3: H for active-high, L for active-low. -/
def polChar (v : ℕ) : Char := if v ≠ 0 then 'H' else 'L'

/-- Latch token, case 2: L for latching, N for non-latching. -/
def latchChar (v : ℕ) : Char := if v ≠ 0 then 'L' else 'N'

/-- Queue token for queue codes 0-2, case 0 of humanConfigz. -/
def queueToken (v : ℕ) : List Char :=
  match v with
  | 2 => ['Q', '4']
  | 1 => ['Q', '2']
  | _ => ['Q', '1']

/-- The first sixteen buffer characters of humanConfigz: the tokens of
the non-comparator fields (start bit, mux, gain, mode, data rate), each
followed by one space. -/
def humanHead (c : ℕ) : List Char :=
  [startChar ((c >>> 15) &&& 1), ' ']
    ++ muxToken ((c >>> 12) &&& 7) ++ [' ']
    ++ gainToken ((c >>> 9) &&& 7) ++ [' ']
    ++ [modeChar ((c >>> 8) &&& 1), ' ']
    ++ rateToken ((c >>> 5) &&& 7) ++ [' ']

/-- The full 22-character buffer before the queue section is written:
the non-comparator tokens followed by the comparator-mode, polarity and
latch tokens, each with its trailing space. -/
def humanTokens (c : ℕ) : List Char :=
  humanHead c
    ++ [compChar ((c >>> 4) &&& 1), ' ',
        polChar ((c >>> 3) &&& 1), ' ',
        latchChar ((c >>> 2) &&& 1), ' ']

/-- humanConfigz, lines 247-362: queue code 3 overwrites the six buffer
positions preceding the write head with spaces (the loop at lines
332-334) and then appends DD; every other queue code appends its Q token.
No separator follows the queue token (case 0 jumps straight to ret). -/
def humanConfigz (c : ℕ) : List Char :=
  if c &&& 3 = 3 then
    (humanTokens c).take ((humanTokens c).length - 6)
      ++ [' ', ' ', ' ', ' ', ' ', ' ', 'D', 'D']
  else humanTokens c ++ queueToken (c &&& 3)

/-- Modelled from claim C8's words: queue code 3 would blank only the two
preceding tokens (polarity and latch, four buffer characters) and leave
the comparator-mode token intact.  Reference definition for comparison
with the source behaviour. -/
def humanConfigzOnlyTwo (c : ℕ) : List Char :=
  if c &&& 3 = 3 then
    (humanTokens c).take ((humanTokens c).length - 4)
      ++ [' ', ' ', ' ', ' ', 'D', 'D']
  else humanTokens c ++ queueToken (c &&& 3)

/-! ## Frame relations and concrete test fixtures -/

/-- Two driver states agree on everything the sample path owns apart from
the config mirror and the transport counters: the enable mask, every raw
slot and every cur slot. -/
def sameFrame (a b : Ads) : Prop :=
  a.mask = b.mask ∧ (∀ k, rawAt a k = rawAt b k) ∧ (∀ k, curAt a k = curAt b k)

/-- Two driver states agree on the enable mask and every cur slot. -/
def sameCurMask (a b : Ads) : Prop :=
  a.mask = b.mask ∧ (∀ k, curAt a k = curAt b k)

/-- A concrete starting state: all four channels enabled, distinct raw
and cur values so that staleness is observable. -/
def stTest : St := ⟨⟨15, 0, 10, 11, 12, 13, 20, 21, 22, 23⟩, 0, 0⟩

/-- The same state with channel 2 removed from the enable mask
(mask 0b1011). -/
def stTestMasked : St := ⟨⟨11, 0, 10, 11, 12, 13, 20, 21, 22, 23⟩, 0, 0⟩

/-- The state readAdc reaches from stTest on busFail2: channels 0 and 1
read 0x8000 and were smoothed, channel 2's configuration write failed
(7 write transactions consumed), channels 2 and 3 keep their old samples. -/
def stFail2 : St := ⟨⟨15, 32768, 32768, 32768, 12, 13, 32764, 32764, 22, 23⟩, 7, 4⟩

/-- The state after the successful prefix (channels 0 and 1) of the
busFail2 run, just before channel 2's failing configuration write. -/
def stPre2 : St := ⟨⟨15, 32768, 32768, 32768, 12, 13, 32764, 32764, 22, 23⟩, 6, 4⟩

/-- The state readAdc reaches from stTest on busOk: every channel read
0x8000 and was smoothed to 0x7ffc. -/
def stOk : St :=
  ⟨⟨15, 32768, 32768, 32768, 32768, 32768, 32764, 32764, 32764, 32764⟩, 12, 8⟩

/-- The state readAdc reaches from stTestMasked on busOk: channels 0, 1, 3
are read (9 writes, 6 reads), channel 2's raw sample is untouched. -/
def stOkMasked : St :=
  ⟨⟨11, 32768, 32768, 32768, 12, 32768, 32764, 32764, 15, 32764⟩, 9, 6⟩

/-- The state writeConfigDbg reaches from stTest on busOk when writing
0x7123: the read-back returned 0x8000, whose low 15 bits differ from
0x7123, and the mirror holds 0x7123 with bit 15 already clear. -/
def stDbg : St := ⟨⟨15, 28963, 10, 11, 12, 13, 20, 21, 22, 23⟩, 2, 1⟩

/-! ## Accessor lemmas -/

theorem rawAt_set_self (a : Ads) (i v : ℕ) : rawAt (setRawAt a i v) i = v := by
  rcases i with _ | _ | _ | i <;> rfl

theorem rawAt_set_ne (a : Ads) {i k : ℕ} (v : ℕ) (hi : i < 4) (hk : k < 4)
    (h : k ≠ i) : rawAt (setRawAt a i v) k = rawAt a k := by
  interval_cases i <;> interval_cases k <;> first | rfl | omega

theorem rawAt_setCur (a : Ads) (i v k : ℕ) : rawAt (setCurAt a i v) k = rawAt a k := by
  rcases i with _ | _ | _ | i <;> rcases k with _ | _ | _ | k <;> rfl

theorem curAt_set_self (a : Ads) (i v : ℕ) : curAt (setCurAt a i v) i = v := by
  rcases i with _ | _ | _ | i <;> rfl

theorem curAt_set_ne (a : Ads) {i k : ℕ} (v : ℕ) (hi : i < 4) (hk : k < 4)
    (h : k ≠ i) : curAt (setCurAt a i v) k = curAt a k := by
  interval_cases i <;> interval_cases k <;> first | rfl | omega

theorem curAt_setRaw (a : Ads) (i v k : ℕ) : curAt (setRawAt a i v) k = curAt a k := by
  rcases i with _ | _ | _ | i <;> rcases k with _ | _ | _ | k <;> rfl

theorem mask_setRaw (a : Ads) (i v : ℕ) : (setRawAt a i v).mask = a.mask := by
  rcases i with _ | _ | _ | i <;> rfl

theorem mask_setCur (a : Ads) (i v : ℕ) : (setCurAt a i v).mask = a.mask := by
  rcases i with _ | _ | _ | i <;> rfl

theorem rawAt_config (a : Ads) (w k : ℕ) : rawAt { a with config := w } k = rawAt a k := by
  rcases k with _ | _ | _ | k <;> rfl

theorem curAt_config (a : Ads) (w k : ℕ) : curAt { a with config := w } k = curAt a k := by
  rcases k with _ | _ | _ | k <;> rfl

theorem and3_lt (m : ℕ) : m &&& 3 < 4 := by
  have h := Nat.and_le_right (n := m) (m := 3)
  omega

theorem and3_of_lt {m : ℕ} (h : m < 4) : m &&& 3 = m := by
  interval_cases m <;> rfl

/-! ## Frame lemmas for the driver operations -/

theorem sameFrame_rfl (a : Ads) : sameFrame a a := ⟨rfl, fun _ => rfl, fun _ => rfl⟩

theorem sameFrame_trans {a b c : Ads} (h1 : sameFrame a b) (h2 : sameFrame b c) :
    sameFrame a c :=
  ⟨h1.1.trans h2.1, fun k => (h1.2.1 k).trans (h2.2.1 k),
    fun k => (h1.2.2 k).trans (h2.2.2 k)⟩

theorem sameFrame.curMask {a b : Ads} (h : sameFrame a b) : sameCurMask a b :=
  ⟨h.1, h.2.2⟩

theorem readConfig_frame (bus : Bus) (s : St) :
    sameFrame ((readConfig bus s).2).adc s.adc := by
  unfold readConfig
  rcases h : bus.readRes s.rCnt with _ | w <;>
    by_cases he : bus.writeRes s.wCnt ≠ 0 <;>
      simp [he, h, sameFrame, rawAt_config, curAt_config]

theorem writeConfig_frame (bus : Bus) (s : St) (c : ℕ) :
    sameFrame ((writeConfig bus s c).2).adc s.adc := by
  unfold writeConfig
  by_cases he : bus.writeRes s.wCnt ≠ 0 <;>
    simp [he, sameFrame, rawAt_config, curAt_config]

theorem checkReady_frame (bus : Bus) (s : St) :
    sameFrame ((checkConversionReady bus s).2.2).adc s.adc := by
  unfold checkConversionReady
  by_cases h : (readConfig bus s).1 ≠ 0 <;> simp [h, readConfig_frame bus s]

theorem pollReady_frame (bus : Bus) :
    ∀ fuel (s : St) e s', pollReady bus fuel s = some (e, s') → sameFrame s'.adc s.adc := by
  intro fuel
  induction fuel with
  | zero => intro s e s' h; simp [pollReady] at h
  | succ n ih =>
      intro s e s' h
      have hf : sameFrame ((checkConversionReady bus s).2.2).adc s.adc :=
        checkReady_frame bus s
      rcases hc : checkConversionReady bus s with ⟨e1, r1, s1⟩
      rw [hc] at hf
      unfold pollReady at h
      rw [hc] at h
      by_cases h1 : e1 = 0
      · subst h1
        simp only [ne_eq, not_true_eq_false, if_false, not_false_eq_true, if_true,
          reduceIte] at h
        by_cases h2 : r1 = 0
        · subst h2
          simp only [ne_eq, not_true_eq_false, if_false, reduceIte] at h
          exact sameFrame_trans (ih _ _ _ h) hf
        · simp only [h2, ne_eq, not_false_eq_true, if_true, reduceIte,
            Option.some.injEq, Prod.mk.injEq] at h
          rcases h with ⟨-, h⟩
          subst h
          exact hf
      · simp only [h1, ne_eq, not_false_eq_true, if_true, reduceIte,
          Option.some.injEq, Prod.mk.injEq] at h
        rcases h with ⟨-, h⟩
        subst h
        exact hf

theorem convRead_curMask (bus : Bus) (s : St) (i : ℕ) :
    sameCurMask ((convRead bus s i).2).adc s.adc := by
  unfold convRead
  rcases h : bus.readRes s.rCnt with _ | v <;>
    by_cases he : bus.writeRes s.wCnt ≠ 0 <;>
      simp [he, h, sameCurMask, curAt_setRaw, mask_setRaw]

theorem convRead_rawAt_ne (bus : Bus) (s : St) {i k : ℕ} (hi : i < 4) (hk : k < 4)
    (hne : k ≠ i) : rawAt ((convRead bus s i).2).adc k = rawAt s.adc k := by
  unfold convRead
  rcases h : bus.readRes s.rCnt with _ | v <;>
    by_cases he : bus.writeRes s.wCnt ≠ 0 <;>
      simp [he, h, rawAt_set_ne _ _ hi hk hne]

theorem readAdcI_masked (bus : Bus) (fuel : ℕ) (s : St) (idx : ℕ)
    (h : (1 <<< (idx &&& 3)) &&& s.adc.mask = 0) :
    readAdcI bus fuel s idx = some (0, s) := by
  unfold readAdcI
  simp [h]

theorem readAdcI_curMask (bus : Bus) (fuel : ℕ) (s : St) (idx : ℕ) {e : ℕ} {s' : St}
    (h : readAdcI bus fuel s idx = some (e, s')) : sameCurMask s'.adc s.adc := by
  unfold readAdcI at h
  by_cases hm : (1 <<< (idx &&& 3)) &&& s.adc.mask = 0
  · simp only [hm, reduceIte, Option.some.injEq, Prod.mk.injEq] at h
    rcases h with ⟨-, h⟩
    subst h
    exact ⟨rfl, fun _ => rfl⟩
  · simp only [hm, reduceIte] at h
    have hwf := writeConfig_frame bus s
      ((((s.adc.config &&& 0x8fff) ||| (1 <<< 14)) ||| ((idx &&& 3) <<< 12)) ||| (1 <<< 15))
    rcases hw : writeConfig bus s
        ((((s.adc.config &&& 0x8fff) ||| (1 <<< 14)) ||| ((idx &&& 3) <<< 12)) ||| (1 <<< 15))
      with ⟨e1, sA⟩
    rw [hw] at h hwf
    by_cases h1 : e1 = 0
    · subst h1
      simp only [ne_eq, not_true_eq_false, if_false, reduceIte] at h
      rcases hp : pollReady bus fuel sA with _ | ⟨e2, s2⟩ <;> rw [hp] at h
      · exact absurd h (by simp)
      · have hpf := pollReady_frame bus fuel sA e2 s2 hp
        by_cases h2 : e2 = 0
        · subst h2
          simp only [ne_eq, not_true_eq_false, if_false, reduceIte,
            Option.some.injEq] at h
          have hcf := convRead_curMask bus s2 (idx &&& 3)
          have hs' : s' = (convRead bus s2 (idx &&& 3)).2 := by rw [h]
          rw [hs']
          exact ⟨hcf.1.trans (hpf.1.trans hwf.1),
            fun k => (hcf.2 k).trans ((hpf.2.2 k).trans (hwf.2.2 k))⟩
        · simp only [h2, ne_eq, not_false_eq_true, reduceIte, Option.some.injEq,
            Prod.mk.injEq] at h
          rcases h with ⟨-, h⟩
          subst h
          exact ⟨hpf.1.trans hwf.1, fun k => (hpf.2.2 k).trans (hwf.2.2 k)⟩
    · simp only [h1, ne_eq, not_false_eq_true, reduceIte, Option.some.injEq,
        Prod.mk.injEq] at h
      rcases h with ⟨-, h⟩
      subst h
      exact ⟨hwf.1, fun k => hwf.2.2 k⟩

theorem readAdcI_rawAt_ne (bus : Bus) (fuel : ℕ) (s : St) (idx : ℕ) {e : ℕ} {s' : St}
    (h : readAdcI bus fuel s idx = some (e, s')) {k : ℕ} (hk : k < 4)
    (hne : k ≠ idx &&& 3) : rawAt s'.adc k = rawAt s.adc k := by
  unfold readAdcI at h
  by_cases hm : (1 <<< (idx &&& 3)) &&& s.adc.mask = 0
  · simp only [hm, reduceIte, Option.some.injEq, Prod.mk.injEq] at h
    rcases h with ⟨-, h⟩
    subst h
    rfl
  · simp only [hm, reduceIte] at h
    have hwf := writeConfig_frame bus s
      ((((s.adc.config &&& 0x8fff) ||| (1 <<< 14)) ||| ((idx &&& 3) <<< 12)) ||| (1 <<< 15))
    rcases hw : writeConfig bus s
        ((((s.adc.config &&& 0x8fff) ||| (1 <<< 14)) ||| ((idx &&& 3) <<< 12)) ||| (1 <<< 15))
      with ⟨e1, sA⟩
    rw [hw] at h hwf
    by_cases h1 : e1 = 0
    · subst h1
      simp only [ne_eq, not_true_eq_false, if_false, reduceIte] at h
      rcases hp : pollReady bus fuel sA with _ | ⟨e2, s2⟩ <;> rw [hp] at h
      · exact absurd h (by simp)
      · have hpf := pollReady_frame bus fuel sA e2 s2 hp
        by_cases h2 : e2 = 0
        · subst h2
          simp only [ne_eq, not_true_eq_false, if_false, reduceIte,
            Option.some.injEq] at h
          have hs' : s' = (convRead bus s2 (idx &&& 3)).2 := by rw [h]
          rw [hs']
          exact (convRead_rawAt_ne bus s2 (and3_lt idx) hk hne).trans
            ((hpf.2.1 k).trans (hwf.2.1 k))
        · simp only [h2, ne_eq, not_false_eq_true, reduceIte, Option.some.injEq,
            Prod.mk.injEq] at h
          rcases h with ⟨-, h⟩
          subst h
          exact (hpf.2.1 k).trans (hwf.2.1 k)
    · simp only [h1, ne_eq, not_false_eq_true, reduceIte, Option.some.injEq,
        Prod.mk.injEq] at h
      rcases h with ⟨-, h⟩
      subst h
      exact hwf.2.1 k

theorem updCur_raw (s : St) (i k : ℕ) : rawAt (updCur s i).adc k = rawAt s.adc k :=
  rawAt_setCur _ _ _ _

theorem updCur_mask (s : St) (i : ℕ) : (updCur s i).adc.mask = s.adc.mask :=
  mask_setCur _ _ _

theorem updCur_cur_self (s : St) (i : ℕ) :
    curAt (updCur s i).adc i = moveWindow (curAt s.adc i) (rawAt s.adc i) :=
  curAt_set_self _ _ _

theorem updCur_cur_ne (s : St) {i k : ℕ} (hi : i < 4) (hk : k < 4) (h : k ≠ i) :
    curAt (updCur s i).adc k = curAt s.adc k :=
  curAt_set_ne _ _ hi hk h

/-! ## Structure of the readAdc channel loop -/

theorem readAdcFrom_step (bus : Bus) (fuel : ℕ) (i : ℕ) (l : List ℕ) (s : St)
    (r : ℕ × St) (h : readAdcFrom bus fuel (i :: l) s = some r) (hr : r.1 = 0) :
    ∃ si, readAdcI bus fuel s i = some (0, si) ∧
      readAdcFrom bus fuel l (updCur si i) = some r := by
  unfold readAdcFrom at h
  rcases h1 : readAdcI bus fuel s i with _ | ⟨e, si⟩ <;> rw [h1] at h
  · exact absurd h (by simp)
  · by_cases he : e = 0
    · subst he
      simp only [ne_eq, not_true_eq_false, if_false, reduceIte] at h
      exact ⟨si, rfl, h⟩
    · simp only [he, ne_eq, not_false_eq_true, reduceIte, Option.some.injEq] at h
      rw [← h] at hr
      exact absurd hr he

theorem readAdcFrom_fail (bus : Bus) (fuel : ℕ) :
    ∀ (l : List ℕ) (s : St) (r : ℕ × St), readAdcFrom bus fuel l s = some r →
      r.1 ≠ 0 → ∃ l1 j l2 sj, l = l1 ++ j :: l2 ∧
        readAdcFrom bus fuel l1 s = some (0, sj) ∧
        readAdcI bus fuel sj j = some (r.1, r.2) := by
  intro l
  induction l with
  | nil =>
      intro s r h hr
      unfold readAdcFrom at h
      simp only [Option.some.injEq] at h
      rw [← h] at hr
      exact absurd rfl hr
  | cons i l ih =>
      intro s r h hr
      have h0 := h
      unfold readAdcFrom at h
      rcases h1 : readAdcI bus fuel s i with _ | ⟨e, si⟩ <;> rw [h1] at h
      · exact absurd h (by simp)
      · by_cases he : e = 0
        · subst he
          simp only [ne_eq, not_true_eq_false, if_false, reduceIte] at h
          obtain ⟨l1, j, l2, sj, hl, hpre, hfail⟩ := ih (updCur si i) r h hr
          refine ⟨i :: l1, j, l2, sj, by rw [hl, List.cons_append], ?_, hfail⟩
          unfold readAdcFrom
          rw [h1]
          simpa using hpre
        · simp only [he, ne_eq, not_false_eq_true, reduceIte, Option.some.injEq] at h
          refine ⟨[], i, l, s, rfl, rfl, ?_⟩
          rw [← h]
          exact h1

theorem readAdcFrom_frame (bus : Bus) (fuel : ℕ) :
    ∀ (l : List ℕ) (s : St) (r : ℕ × St) (k : ℕ), (∀ m ∈ l, m < 4) → k < 4 →
      k ∉ l → readAdcFrom bus fuel l s = some r →
      rawAt r.2.adc k = rawAt s.adc k ∧ curAt r.2.adc k = curAt s.adc k := by
  intro l
  induction l with
  | nil =>
      intro s r k _ _ _ h
      unfold readAdcFrom at h
      simp only [Option.some.injEq] at h
      rw [← h]
      exact ⟨rfl, rfl⟩
  | cons m l ih =>
      intro s r k hl hk hnot h
      have hm4 : m < 4 := hl m (by simp)
      have hkm : k ≠ m := fun he => hnot (he ▸ List.mem_cons_self m l)
      unfold readAdcFrom at h
      rcases h1 : readAdcI bus fuel s m with _ | ⟨e, si⟩ <;> rw [h1] at h
      · exact absurd h (by simp)
      · have hraw : rawAt si.adc k = rawAt s.adc k :=
          readAdcI_rawAt_ne bus fuel s m h1 hk (by rw [and3_of_lt hm4]; exact hkm)
        have hcur : curAt si.adc k = curAt s.adc k :=
          (readAdcI_curMask bus fuel s m h1).2 k
        by_cases he : e = 0
        · subst he
          simp only [ne_eq, not_true_eq_false, if_false, reduceIte] at h
          have := ih (updCur si m) r k (fun x hx => hl x (List.mem_cons_of_mem m hx))
            hk (fun hx => hnot (List.mem_cons_of_mem m hx)) h
          refine ⟨this.1.trans ?_, this.2.trans ?_⟩
          · exact (updCur_raw si m k).trans hraw
          · exact (updCur_cur_ne si hm4 hk hkm).trans hcur
        · simp only [he, ne_eq, not_false_eq_true, reduceIte, Option.some.injEq] at h
          rw [← h]
          exact ⟨hraw, hcur⟩

theorem readAdcFrom_mask (bus : Bus) (fuel : ℕ) :
    ∀ (l : List ℕ) (s : St) (r : ℕ × St), readAdcFrom bus fuel l s = some r →
      r.2.adc.mask = s.adc.mask := by
  intro l
  induction l with
  | nil =>
      intro s r h
      unfold readAdcFrom at h
      simp only [Option.some.injEq] at h
      rw [← h]
  | cons m l ih =>
      intro s r h
      unfold readAdcFrom at h
      rcases h1 : readAdcI bus fuel s m with _ | ⟨e, si⟩ <;> rw [h1] at h
      · exact absurd h (by simp)
      · have hmask : si.adc.mask = s.adc.mask := (readAdcI_curMask bus fuel s m h1).1
        by_cases he : e = 0
        · subst he
          simp only [ne_eq, not_true_eq_false, if_false, reduceIte] at h
          exact (ih (updCur si m) r h).trans ((updCur_mask si m).trans hmask)
        · simp only [he, ne_eq, not_false_eq_true, reduceIte, Option.some.injEq] at h
          rw [← h]
          exact hmask

theorem prefix_of_channel_list : ∀ (l1 : List ℕ) (j : ℕ) (l2 : List ℕ),
    ([0, 1, 2, 3] : List ℕ) = l1 ++ j :: l2 → j < 4 ∧ l1 = List.range j := by
  intro l1 j l2 h
  rcases l1 with _ | ⟨a, _ | ⟨b, _ | ⟨c, _ | ⟨d, l1⟩⟩⟩⟩ <;> simp_all
  · omega
  · refine ⟨by omega, ?_⟩
    rw [← h.1, ← h.2.1]
    decide
  · refine ⟨by omega, ?_⟩
    rw [← h.1, ← h.2.1, ← h.2.2.1]
    decide
  · refine ⟨by omega, ?_⟩
    rw [← h.1, ← h.2.1, ← h.2.2.1, ← h.2.2.2.1]
    decide

theorem readAdcFrom_cur_moveWindow (bus : Bus) (fuel : ℕ) :
    ∀ (l : List ℕ) (s : St) (r : ℕ × St), (∀ m ∈ l, m < 4) → l.Nodup →
      readAdcFrom bus fuel l s = some r → r.1 = 0 → ∀ k ∈ l,
        curAt r.2.adc k = moveWindow (curAt s.adc k) (rawAt r.2.adc k) := by
  intro l
  induction l with
  | nil => intro s r _ _ _ _ k hk; exact absurd hk (List.not_mem_nil k)
  | cons i l ih =>
      intro s r hl hnd h hr k hk
      have hi4 : i < 4 := hl i (by simp)
      obtain ⟨si, hIi, hrest⟩ := readAdcFrom_step bus fuel i l s r h hr
      have hnotin : i ∉ l := (List.nodup_cons.1 hnd).1
      rcases List.mem_cons.1 hk with hki | hkl
      · subst hki
        have hframe := readAdcFrom_frame bus fuel l (updCur si k) r k
          (fun m hm => hl m (List.mem_cons_of_mem k hm)) hi4 hnotin hrest
        have h1 : curAt r.2.adc k = moveWindow (curAt si.adc k) (rawAt si.adc k) :=
          hframe.2.trans (updCur_cur_self si k)
        have h2 : curAt si.adc k = curAt s.adc k :=
          (readAdcI_curMask bus fuel s k hIi).2 k
        have h3 : rawAt si.adc k = rawAt r.2.adc k :=
          ((updCur_raw si k k).symm).trans hframe.1.symm
        rw [h1, h2, h3]
      · have hk4 : k < 4 := hl k (List.mem_cons_of_mem i hkl)
        have hki : k ≠ i := fun he => hnotin (he ▸ hkl)
        have hihk := ih (updCur si i) r
          (fun m hm => hl m (List.mem_cons_of_mem i hm)) (List.nodup_cons.1 hnd).2
          hrest hr k hkl
        have h1 : curAt (updCur si i).adc k = curAt s.adc k :=
          (updCur_cur_ne si hi4 hk4 hki).trans ((readAdcI_curMask bus fuel s i hIi).2 k)
        rw [hihk, h1]

theorem readAdcFrom_masked_raw (bus : Bus) (fuel : ℕ) :
    ∀ (l : List ℕ) (s : St) (r : ℕ × St) (k : ℕ), (∀ m ∈ l, m < 4) → k < 4 →
      (1 <<< k) &&& s.adc.mask = 0 → readAdcFrom bus fuel l s = some r →
      rawAt r.2.adc k = rawAt s.adc k := by
  intro l
  induction l with
  | nil =>
      intro s r k _ _ _ h
      unfold readAdcFrom at h
      simp only [Option.some.injEq] at h
      rw [← h]
  | cons m l ih =>
      intro s r k hl hk hmask h
      have hm4 : m < 4 := hl m (by simp)
      unfold readAdcFrom at h
      rcases h1 : readAdcI bus fuel s m with _ | ⟨e, si⟩ <;> rw [h1] at h
      · exact absurd h (by simp)
      · have hraw : rawAt si.adc k = rawAt s.adc k := by
          by_cases hkm : k = m
          · subst hkm
            have := readAdcI_masked bus fuel s k (by rw [and3_of_lt hk]; exact hmask)
            rw [this] at h1
            simp only [Option.some.injEq, Prod.mk.injEq] at h1
            rw [h1.2]
          · exact readAdcI_rawAt_ne bus fuel s m h1 hk (by rw [and3_of_lt hm4]; exact hkm)
        have hmaski : si.adc.mask = s.adc.mask := (readAdcI_curMask bus fuel s m h1).1
        by_cases he : e = 0
        · subst he
          simp only [ne_eq, not_true_eq_false, if_false, reduceIte] at h
          have := ih (updCur si m) r k (fun x hx => hl x (List.mem_cons_of_mem m hx)) hk
            (by rw [updCur_mask, hmaski]; exact hmask) h
          rw [this, updCur_raw, hraw]
        · simp only [he, ne_eq, not_false_eq_true, reduceIte, Option.some.injEq] at h
          rw [← h]
          exact hraw

theorem busStuck_write (n : ℕ) : busStuck.writeRes n = 0 := rfl

theorem pollReady_stuck : ∀ (fuel : ℕ) (s : St), pollReady busStuck fuel s = none := by
  intro fuel
  induction fuel with
  | zero => intro s; rfl
  | succ n ih =>
      intro s
      unfold pollReady
      simp [checkConversionReady, readConfig, busStuck]
      exact ih _

theorem readConfig_success (bus : Bus) (s : St) (h : (readConfig bus s).1 = 0) :
    ∃ w, bus.readRes s.rCnt = some w ∧
      readConfig bus s =
        (0, ⟨{ s.adc with config := w &&& 0xffff }, s.wCnt + 1, s.rCnt + 1⟩) := by
  unfold readConfig at h ⊢
  by_cases h1 : bus.writeRes s.wCnt ≠ 0
  · simp [h1] at h
  · rcases h4 : bus.readRes s.rCnt with _ | w
    · dsimp only at h
      rw [h4] at h
      simp [h1] at h
    · refine ⟨w, rfl, ?_⟩
      dsimp only
      rw [h4]
      simp [h1]

/-! ## The claims -/

/-- C1 counterexample: reading the filter step over signed 16-bit values
with the signed bounds MIN = -32768 and MAX = 32767, as the claim states
it, contradicts the source: at window size 3 (low = -3, high = 4), anchor
0 and raw sample -10, the claim's rule 1 gives R - low = -7, but the
source's unsigned comparisons see -10 as 65526 and move the anchor UP by
rule 2, producing -14. -/
theorem moveWindow_signed_bounds_counterexample :
    moveWindowInt16 0 (-10) = -14 ∧
      windowStepSpec (-3) 4 (-32768) 32767 0 (-10) = -7 ∧
      moveWindowInt16 0 (-10) ≠ windowStepSpec (-3) 4 (-32768) 32767 0 (-10) := by
  decide

/-- C1 (amended): one filter step follows the claimed three-rule window
update exactly when the values and bounds are read as the source's
uint16_t arithmetic: anchor and raw sample are 16-bit naturals and the
representable bounds are MIN = 0 and MAX = 65535.  With offsets derived
from window size n >= 1 as high = 2^(n-1), low = -(2^(n-1)-1), the step
returns R - low when A > MIN - low and R < A + low, else R - high when
A < MAX - high and R > A + high, else A.  Moreover the value readAdc
reports for every channel is the anchor produced this way from the old
anchor and the fetched raw sample, never the raw sample itself. -/
theorem moveWindow_unsigned_window_rule :
    (∀ n A R : ℕ, 1 ≤ n → A < 65536 → R < 65536 →
      ((moveWindowP (windowLmag n) (windowH n) A R : ℕ) : ℤ) =
        windowStepSpec (-((2:ℤ) ^ (n - 1) - 1)) ((2:ℤ) ^ (n - 1)) 0 65535
          (A : ℤ) (R : ℤ)) ∧
    (∀ (bus : Bus) (fuel : ℕ) (s : St) (r : ℕ × St), readAdc bus fuel s = some r →
      r.1 = 0 → ∀ k, k < 4 →
        curAt r.2.adc k = moveWindow (curAt s.adc k) (rawAt r.2.adc k)) := by
  constructor
  · intro n A R hn hA hR
    have hn0 : n ≠ 0 := by omega
    have hH : windowH n = 2 ^ (n - 1) := by
      simp [windowH, hn0, Nat.shiftLeft_eq]
    have hL : windowLmag n = 2 ^ (n - 1) - 1 := by simp [windowLmag, hn0, hH]
    have hcast : ((2 ^ (n - 1) : ℕ) : ℤ) = (2:ℤ) ^ (n - 1) := by push_cast; ring
    rw [hH, hL, ← hcast]
    have hpos : 1 ≤ (2:ℕ) ^ (n - 1) := Nat.one_le_two_pow
    generalize hg : (2:ℕ) ^ (n - 1) = h at *
    unfold moveWindowP windowStepSpec
    split_ifs <;> omega
  · intro bus fuel s r h hr k hk
    exact readAdcFrom_cur_moveWindow bus fuel [0, 1, 2, 3] s r
      (by intro m hm; simp at hm; omega) (by decide) h hr k
      (by simp; omega)

theorem moveWindow_unsigned_window_rule_witness :
    ((1:ℕ) ≤ 3 ∧ (0:ℕ) < 65536 ∧ (100:ℕ) < 65536 ∧
      ((moveWindowP (windowLmag 3) (windowH 3) 0 100 : ℕ) : ℤ) =
        windowStepSpec (-((2:ℤ) ^ (3 - 1) - 1)) ((2:ℤ) ^ (3 - 1)) 0 65535
          ((0:ℕ) : ℤ) ((100:ℕ) : ℤ)) ∧
    (readAdc busOk 1 stTest = some (0, stOk) ∧
      curAt stOk.adc 2 = moveWindow (curAt stTest.adc 2) (rawAt stOk.adc 2)) :=
  ⟨⟨by decide, by decide, by decide,
      moveWindow_unsigned_window_rule.1 3 0 100 (by decide) (by decide) (by decide)⟩,
    ⟨by decide,
      moveWindow_unsigned_window_rule.2 busOk 1 stTest (0, stOk) (by decide) rfl 2
        (by decide)⟩⟩

/-- C2: with window size 3 the offsets are low = -3 and high = 4, and from
anchor 0 the filter moves to 96 on raw 100, stays at 96 on raw 99, and
moves to 53 on raw 50. -/
theorem moveWindow_example_sequence :
    WINDOW_Lz = -3 ∧ WINDOW_H = 4 ∧ moveWindow 0 100 = 96 ∧
      moveWindow 96 99 = 96 ∧ moveWindow 96 50 = 53 := by
  decide

/-- C3: whenever the raw sample R lies inside the window
[A + low, A + high] around the anchor A (low having magnitude lmag, high
being hmag), applying the filter step with that same R any number of
times leaves the anchor unchanged. -/
theorem moveWindow_idempotent_at_fixed_point (lmag hmag A R : ℕ)
    (h1 : A ≤ R + lmag) (h2 : R ≤ A + hmag) :
    ∀ k : ℕ, (fun a => moveWindowP lmag hmag a R)^[k] A = A := by
  intro k
  refine Function.iterate_fixed ?_ k
  show moveWindowP lmag hmag A R = A
  unfold moveWindowP
  split_ifs <;> omega

theorem moveWindow_idempotent_at_fixed_point_witness :
    ((96:ℕ) ≤ 99 + 3 ∧ (99:ℕ) ≤ 96 + 4) ∧
      (fun a => moveWindowP 3 4 a 99)^[5] 96 = 96 :=
  ⟨⟨by decide, by decide⟩,
    moveWindow_idempotent_at_fixed_point 3 4 96 99 (by decide) (by decide) 5⟩

/-- C4: readAdc walks the channel list 0, 1, 2, 3 in ascending order, and
when the first transport failure happens at channel j the returned error
and state are exactly those produced by the failing readAdcI call: the
channels before j were processed successfully, nothing after j was
transacted on, and every channel after j keeps its old raw sample and its
old smoothed value for that cycle. -/
theorem readAdc_aborts_on_first_failure (bus : Bus) (fuel : ℕ) (s : St)
    (r : ℕ × St) (h : readAdc bus fuel s = some r) (hr : r.1 ≠ 0) :
    ∃ j sj, j < 4 ∧ readAdcFrom bus fuel (List.range j) s = some (0, sj) ∧
      readAdcI bus fuel sj j = some (r.1, r.2) ∧
      ∀ k, j < k → k < 4 → rawAt r.2.adc k = rawAt s.adc k ∧
        curAt r.2.adc k = curAt s.adc k := by
  obtain ⟨l1, j, l2, sj, hl, hpre, hfail⟩ := readAdcFrom_fail bus fuel _ s r h hr
  obtain ⟨hj4, hl1⟩ := prefix_of_channel_list l1 j l2 hl
  subst hl1
  refine ⟨j, sj, hj4, hpre, hfail, ?_⟩
  intro k hjk hk4
  have hpref := readAdcFrom_frame bus fuel (List.range j) s (0, sj) k
    (fun m hm => by have := List.mem_range.1 hm; omega) hk4
    (fun hm => by have := List.mem_range.1 hm; omega) hpre
  have hraw2 : rawAt r.2.adc k = rawAt sj.adc k :=
    readAdcI_rawAt_ne bus fuel sj j hfail hk4 (by rw [and3_of_lt hj4]; omega)
  have hcur2 : curAt r.2.adc k = curAt sj.adc k :=
    (readAdcI_curMask bus fuel sj j hfail).2 k
  exact ⟨hraw2.trans hpref.1, hcur2.trans hpref.2⟩

theorem readAdc_aborts_on_first_failure_witness :
    (readAdc busFail2 1 stTest = some (4, stFail2) ∧ (4:ℕ) ≠ 0) ∧
      (∃ j sj, j < 4 ∧ readAdcFrom busFail2 1 (List.range j) stTest = some (0, sj) ∧
        readAdcI busFail2 1 sj j = some (4, stFail2) ∧
        ∀ k, j < k → k < 4 → rawAt stFail2.adc k = rawAt stTest.adc k ∧
          curAt stFail2.adc k = curAt stTest.adc k) :=
  ⟨⟨by decide, by decide⟩,
    readAdc_aborts_on_first_failure busFail2 1 stTest (4, stFail2) (by decide)
      (by decide)⟩

/-- C5: a channel excluded by the enable mask is a no-op: readAdcI
returns success 0 with the state (samples, counters, everything)
untouched, so no bus transaction happens; and inside a whole readAdc
cycle the masked channel's raw sample is left unchanged even while the
other channels are read. -/
theorem masked_channel_untouched :
    (∀ (bus : Bus) (fuel : ℕ) (s : St) (idx : ℕ),
      (1 <<< (idx &&& 3)) &&& s.adc.mask = 0 → readAdcI bus fuel s idx = some (0, s)) ∧
    (∀ (bus : Bus) (fuel : ℕ) (s : St) (r : ℕ × St) (k : ℕ), k < 4 →
      (1 <<< k) &&& s.adc.mask = 0 → readAdc bus fuel s = some r →
      rawAt r.2.adc k = rawAt s.adc k) := by
  constructor
  · exact readAdcI_masked
  · intro bus fuel s r k hk hmask h
    exact readAdcFrom_masked_raw bus fuel [0, 1, 2, 3] s r k
      (by intro m hm; simp at hm; omega) hk hmask h

theorem masked_channel_untouched_witness :
    ((1 <<< (2 &&& 3)) &&& stTestMasked.adc.mask = 0 ∧
      readAdcI busOk 1 stTestMasked 2 = some (0, stTestMasked)) ∧
    ((2:ℕ) < 4 ∧ (1 <<< 2) &&& stTestMasked.adc.mask = 0 ∧
      readAdc busOk 1 stTestMasked = some (0, stOkMasked) ∧
      rawAt stOkMasked.adc 2 = rawAt stTestMasked.adc 2) :=
  ⟨⟨by decide, masked_channel_untouched.1 busOk 1 stTestMasked 2 (by decide)⟩,
    ⟨by decide, by decide, by decide,
      masked_channel_untouched.2 busOk 1 stTestMasked (0, stOkMasked) 2 (by decide)
        (by decide) (by decide)⟩⟩

/-- C6: the conversion-ready poll in readAdcI has no retry bound in the
source.  On a bus that acknowledges every write and always reports the
ready bit clear, readAdcI of an enabled channel fails to return within
ANY number of poll iterations: the loop is unbounded, so no retry count
is ever exceeded and no TransportError is produced. -/
theorem readAdcI_stuck_poll_never_returns (fuel : ℕ) (s : St) (idx : ℕ)
    (h : (1 <<< (idx &&& 3)) &&& s.adc.mask ≠ 0) :
    readAdcI busStuck fuel s idx = none := by
  simp only [readAdcI, h, reduceIte, writeConfig, busStuck_write, ne_eq,
    not_true_eq_false, if_false, ite_false, pollReady_stuck]

theorem readAdcI_stuck_poll_never_returns_witness :
    (1 <<< (0 &&& 3)) &&& stTest.adc.mask ≠ 0 ∧ readAdcI busStuck 5 stTest 0 = none :=
  ⟨by decide, readAdcI_stuck_poll_never_returns 5 stTest 0 (by decide)⟩

/-- C7: bit 15's write and read meanings stay separate.  After a
successful writeConfig the mirrored configuration is the written word
with bit 15 cleared (so the start bit is never stored), and the DEBUG
read-back comparison reports a mismatch exactly when the low 15 bits of
the written word and of the word read back differ. -/
theorem writeConfig_mirror_and_mismatch :
    (∀ (bus : Bus) (s : St) (c : ℕ), (writeConfig bus s c).1 = 0 →
      ((writeConfig bus s c).2).adc.config = c &&& 0x7fff ∧
      (((writeConfig bus s c).2).adc.config).testBit 15 = false) ∧
    (∀ (bus : Bus) (s : St) (c : ℕ) (m : Bool) (s' : St),
      writeConfigDbg bus s c = (0, m, s') →
      s'.adc.config = c &&& 0x7fff ∧
      ∃ w, bus.readRes s.rCnt = some w ∧
        (m = true ↔ (c &&& 0x7fff) ≠ (w &&& 0x7fff))) := by
  have wcs : ∀ (bus : Bus) (s : St) (c : ℕ), (writeConfig bus s c).1 = 0 →
      writeConfig bus s c =
        (0, ⟨{ s.adc with config := c &&& 0x7fff }, s.wCnt + 1, s.rCnt⟩) := by
    intro bus s c h
    unfold writeConfig at h ⊢
    by_cases h1 : bus.writeRes s.wCnt ≠ 0
    · simp [h1] at h
    · simp [h1]
  constructor
  · intro bus s c h
    rw [wcs bus s c h]
    exact ⟨rfl,
      by simp [Nat.testBit_and, show Nat.testBit 32767 15 = false from by decide]⟩
  · intro bus s c m s' h
    unfold writeConfigDbg at h
    by_cases h1 : bus.writeRes s.wCnt ≠ 0
    · simp [h1] at h
    · simp only [ne_eq, h1, not_false_eq_true, reduceIte] at h
      by_cases h2 : (readConfig bus { s with wCnt := s.wCnt + 1 }).1 ≠ 0
      · simp [h2] at h
      · simp only [ne_eq, h2, not_false_eq_true, reduceIte, Prod.mk.injEq, true_and] at h
        push_neg at h2
        obtain ⟨w, hw, hrc⟩ := readConfig_success bus { s with wCnt := s.wCnt + 1 } h2
        rcases h with ⟨hm, hs⟩
        refine ⟨?_, w, hw, ?_⟩
        · rw [← hs, hrc]
        · rw [← hm, hrc]
          simp only [decide_eq_true_eq]
          rw [Nat.and_assoc, show (65535 &&& 32767 : ℕ) = 32767 from by decide]

theorem writeConfig_mirror_and_mismatch_witness :
    ((writeConfig busOk stTest 0x7123).1 = 0 ∧
      ((writeConfig busOk stTest 0x7123).2).adc.config = 0x7123 &&& 0x7fff ∧
      (((writeConfig busOk stTest 0x7123).2).adc.config).testBit 15 = false) ∧
    (writeConfigDbg busOk stTest 0x7123 = (0, true, stDbg) ∧
      (stDbg.adc.config = 0x7123 &&& 0x7fff ∧
        ∃ w, busOk.readRes stTest.rCnt = some w ∧
          (true = true ↔ (0x7123 &&& 0x7fff : ℕ) ≠ (w &&& 0x7fff)))) :=
  ⟨⟨by decide, writeConfig_mirror_and_mismatch.1 busOk stTest 0x7123 (by decide)⟩,
    ⟨by decide,
      writeConfig_mirror_and_mismatch.2 busOk stTest 0x7123 true stDbg (by decide)⟩⟩

/-- C8 counterexample: the claim says queue code 3 blanks only the two
tokens before it (polarity and latch) and leaves the comparator-mode
token intact.  At config word 19 (queue = 3, comparator-mode bit set, so
its token would be W) the source blanks six characters, wiping the
comparator-mode token as well: buffer position 16 holds a space, not W,
and the output differs from the claim's rendering. -/
theorem humanConfigz_blanks_comparator_mode_too :
    humanConfigz 19 ≠ humanConfigzOnlyTwo 19 ∧
      (humanConfigzOnlyTwo 19).getD 16 ' ' = 'W' ∧
      (humanConfigz 19).getD 16 ' ' = ' ' := by
  decide

/-- C8 (amended): for every config word whose queue field is 3,
humanConfigz emits DD for the queue field and blanks the THREE preceding
comparator-related tokens (comparator mode, polarity and latch, six
buffer characters), leaving the tokens of every non-comparator field
(start bit, mux, gain, mode, data rate) intact. -/
theorem humanConfigz_disable_blanks_three_tokens (c : ℕ) (h : c &&& 3 = 3) :
    humanConfigz c = humanHead c ++ [' ', ' ', ' ', ' ', ' ', ' ', 'D', 'D'] := by
  unfold humanConfigz
  rw [if_pos h]
  have h6 : (humanTokens c).length - 6 = (humanHead c).length := by
    unfold humanTokens
    rw [List.length_append]
    simp
  rw [h6]
  unfold humanTokens
  rw [List.take_left]

theorem humanConfigz_disable_blanks_three_tokens_witness :
    (19 &&& 3 = 3) ∧
      humanConfigz 19 = humanHead 19 ++ [' ', ' ', ' ', ' ', ' ', ' ', 'D', 'D'] :=
  ⟨by decide, humanConfigz_disable_blanks_three_tokens 19 (by decide)⟩

/-- C9: the data-rate tokens humanConfigz renders for codes 0-7.  Codes
0-4, 6 and 7 give 8, 16, 32, 64, 128, 475 and 860 as the claim says, but
code 5 goes through the itoa(8 shifted left by 5) default branch and is
rendered 256, not the device's actual 250 samples per second. -/
theorem humanConfigz_rate_code5_renders_256 :
    ((humanConfigz (5 <<< 5)).drop 12).take 3 = ['2', '5', '6'] ∧
      ((5 <<< 5) >>> 5) &&& 7 = 5 ∧
      ((humanConfigz (0 <<< 5)).drop 12).take 3 = ['8', nulChar, nulChar] ∧
      ((humanConfigz (1 <<< 5)).drop 12).take 3 = ['1', '6', nulChar] ∧
      ((humanConfigz (2 <<< 5)).drop 12).take 3 = ['3', '2', nulChar] ∧
      ((humanConfigz (3 <<< 5)).drop 12).take 3 = ['6', '4', nulChar] ∧
      ((humanConfigz (4 <<< 5)).drop 12).take 3 = ['1', '2', '8'] ∧
      ((humanConfigz (6 <<< 5)).drop 12).take 3 = ['4', '7', '5'] ∧
      ((humanConfigz (7 <<< 5)).drop 12).take 3 = ['8', '6', '0'] := by
  decide

/-- C10: readAdcI only ever uses its channel index masked to the low two
bits (idx AND 0b11), so for any 8-bit index it behaves exactly as it does
on idx mod 4; an out-of-range index is clamped, never rejected. -/
theorem readAdcI_clamps_index (bus : Bus) (fuel : ℕ) (s : St) (idx : ℕ)
    (h : idx < 256) : readAdcI bus fuel s idx = readAdcI bus fuel s (idx % 4) := by
  have h1 : idx &&& 3 = idx % 4 := Nat.and_pow_two_sub_one_eq_mod idx 2
  have h2 : (idx % 4) &&& 3 = idx % 4 := by
    rw [Nat.and_pow_two_sub_one_eq_mod (idx % 4) 2]
    omega
  unfold readAdcI
  rw [h1, h2]

theorem readAdcI_clamps_index_witness :
    (7:ℕ) < 256 ∧ readAdcI busOk 1 stTest 7 = readAdcI busOk 1 stTest (7 % 4) :=
  ⟨by decide, readAdcI_clamps_index busOk 1 stTest 7 (by decide)⟩
